import Mathlib

/-!
Shallow embedding of the Forth evaluator implemented in `src/lib.rs` of the
`forth-tui` repository. The TUI front-end (`src/main.rs`) is a pure consumer
of the evaluator and is out of scope here.

Modelling choices:
* A Rust `&str` token is modelled as a `List Char` (`Word`); Rust's
  `to_ascii_uppercase` is `List.map Char.toUpper` (Lean's `Char.toUpper` is
  ASCII-only, like Rust's method).
* `Value = i32` is modelled as `Int`; the `i32` range check that
  `str::parse::<i32>` performs is kept in `parseValue`. Arithmetic inside
  `perform_maths_operation` is modelled exactly on `Int` (the spec leaves
  host overflow behavior implementation-defined, and no claim depends on it);
  `/` is Rust's truncating division, `Int.tdiv`.
* Rust methods mutate `self` and return `Result<(), Error>`; they are
  modelled as functions `Forth → Forth × Option Error` returning the
  post-state together with the error, so that partial mutation before a
  failure stays observable.
* The recursion `eval_instruction → call_user_defined_instruction →
  eval_instruction` is not structurally decreasing in the Rust code, so the
  evaluation functions take an explicit fuel parameter; `none` means the
  fuel ran out. A result of `some r` for some fuel is the value the Rust
  code computes; `= none` for every fuel means the Rust code diverges.
-/

abbrev Value := Int

abbrev Word := List Char

structure Definition where
  name : Word
  instructions : List Word
deriving DecidableEq

structure Forth where
  stack : List Value        -- index 0 = bottom of the stack, push/pop at the end, like `Vec<Value>`
  definitions : List Definition
deriving DecidableEq

inductive Error where
  | DivisionByZero
  | StackUnderflow
  | UnknownWord
  | InvalidWord
deriving DecidableEq

inductive Instruction where
  | Number (value : Value)
  | Add
  | Subtract
  | Multiply
  | Divide
  | Dup
  | Drop
  | Over
  | Swap
  | CallDefinition (index : Nat)
deriving DecidableEq

/-- Rust `str::to_ascii_uppercase` on a token. -/
def toAsciiUppercase (w : Word) : Word := w.map Char.toUpper

/-- Accumulator loop for `tokenize`: `cur` holds the (reversed) word being read. -/
def wordsAux : List Char → List Char → List Word
  | [], cur => if cur = [] then [] else [cur.reverse]
  | c :: cs, cur =>
    if c.isWhitespace then
      if cur = [] then wordsAux cs [] else cur.reverse :: wordsAux cs []
    else wordsAux cs (c :: cur)

/-- Rust `str::split_whitespace` as used by `Forth::eval`: the non-empty
maximal runs of non-whitespace characters, in order. -/
def tokenize (input : String) : List Word := wordsAux input.toList []

/-- Decimal-digit accumulator for `parseValue`; fails on any non-digit. -/
def digitsValAux : List Char → Nat → Option Nat
  | [], acc => some acc
  | c :: cs, acc =>
    if c.isDigit then digitsValAux cs (acc * 10 + (c.toNat - 48)) else none

/-- Rust `str::parse::<i32>`: an optional sign, then at least one decimal
digit, nothing else, and the resulting value must fit in `i32`. -/
def parseValue (w : Word) : Option Value :=
  let signDigits : Int × List Char :=
    match w with
    | '+' :: cs => (1, cs)
    | '-' :: cs => (-1, cs)
    | cs => (1, cs)
  match signDigits.2 with
  | [] => none
  | _ :: _ =>
    match digitsValAux signDigits.2 0 with
    | none => none
    | some n =>
      let v : Int := signDigits.1 * (n : Int)
      if -2147483648 ≤ v ∧ v ≤ 2147483647 then some v else none

namespace Forth

/-- `Forth::new`. -/
def new : Forth := ⟨[], []⟩

/-- The scan `self.definitions.iter().enumerate().rev()` inside
`Forth::instruction_from_word`, counting down from `start - 1`: the first
(i.e. highest) index `< start` whose definition has the given name and whose
index is `≤ maxIndex`. -/
def lookupFrom (defs : List Definition) (canonical : Word) (maxIndex : Nat) : Nat → Option Nat
  | 0 => none
  | i + 1 =>
    if (defs.getD i ⟨[], []⟩).name = canonical ∧ i ≤ maxIndex then some i
    else lookupFrom defs canonical maxIndex i

/-- The whole definition-table scan of `Forth::instruction_from_word`. -/
def lookupDefinition (defs : List Definition) (canonical : Word) (maxIndex : Nat) : Option Nat :=
  lookupFrom defs canonical maxIndex defs.length

/-- `Forth::instruction_from_word`. -/
def instructionFromWord (f : Forth) (word : Word) (maxIndex : Nat) : Except Error Instruction :=
  let canonical := toAsciiUppercase word
  match lookupDefinition f.definitions canonical maxIndex with
  | some index => .ok (.CallDefinition index)
  | none =>
    if canonical = ['+'] then .ok .Add
    else if canonical = ['-'] then .ok .Subtract
    else if canonical = ['*'] then .ok .Multiply
    else if canonical = ['/'] then .ok .Divide
    else if canonical = ['D', 'U', 'P'] then .ok .Dup
    else if canonical = ['D', 'R', 'O', 'P'] then .ok .Drop
    else if canonical = ['S', 'W', 'A', 'P'] then .ok .Swap
    else if canonical = ['O', 'V', 'E', 'R'] then .ok .Over
    else
      match parseValue word with
      | some int => .ok (.Number int)
      | none => .error .UnknownWord

/-- The `for word in words` collection loop of `Forth::add_definition`:
accumulates body tokens verbatim until the terminator `;`, returning the
completed definition together with the tokens left after the terminator. -/
def collectDefinitionBody (name : Word) (acc : List Word) :
    List Word → Except Error (Definition × List Word)
  | [] => .error .InvalidWord
  | w :: ws =>
    if w = [';'] then .ok (⟨toAsciiUppercase name, acc⟩, ws)
    else collectDefinitionBody name (acc ++ [w]) ws

/-- `Forth::add_definition`, acting on the tokens that follow the `:` marker.
The Rust method pushes the completed definition onto `self.definitions`
itself; here the definition to append is returned and `evalTokens` appends
it, so that on any error the table is visibly untouched. -/
def addDefinition (words : List Word) : Except Error (Definition × List Word) :=
  match words with
  | [] => .error .InvalidWord
  | name :: rest =>
    if (parseValue name).isSome then .error .InvalidWord   -- cannot redefine numbers
    else collectDefinitionBody name [] rest

/-- `Forth::stack_push`. -/
def stackPush (f : Forth) (value : Value) : Forth :=
  { f with stack := f.stack ++ [value] }

/-- `Forth::stack_pop` (`Vec::pop` removes the last element; on an empty
stack nothing is mutated and `StackUnderflow` is returned). -/
def stackPop (f : Forth) : Except Error (Value × Forth) :=
  match f.stack.getLast? with
  | some value => .ok (value, { f with stack := f.stack.dropLast })
  | none => .error .StackUnderflow

/-- `Forth::push_value_onto_the_stack`. -/
def pushValueOntoTheStack (f : Forth) (value : Value) : Forth × Option Error :=
  (f.stackPush value, none)

/-- `Forth::dup`. -/
def dup (f : Forth) : Forth × Option Error :=
  match f.stackPop with
  | .error e => (f, some e)
  | .ok (last, f1) => ((f1.stackPush last).stackPush last, none)

/-- `Forth::drop`. -/
def drop (f : Forth) : Forth × Option Error :=
  match f.stackPop with
  | .error e => (f, some e)
  | .ok (_, f1) => (f1, none)

/-- `Forth::swap`. Note that the first pop's effect persists when the second
pop fails: on a one-element stack the element is lost. -/
def swap (f : Forth) : Forth × Option Error :=
  match f.stackPop with
  | .error e => (f, some e)
  | .ok (last, f1) =>
    match f1.stackPop with
    | .error e => (f1, some e)
    | .ok (previous, f2) => ((f2.stackPush last).stackPush previous, none)

/-- `Forth::over`. As with `swap`, the first pop persists if the second fails. -/
def over (f : Forth) : Forth × Option Error :=
  match f.stackPop with
  | .error e => (f, some e)
  | .ok (last, f1) =>
    match f1.stackPop with
    | .error e => (f1, some e)
    | .ok (previous, f2) =>
      (((f2.stackPush previous).stackPush last).stackPush previous, none)

/-- `Forth::perform_maths_operation`: underflow check, then (for `Divide`)
the zero scan over `stack.iter().skip(1)`, then the whole stack is replaced
by a single left fold starting from `stack[0]`. -/
def performMathsOperation (f : Forth) (instruction : Instruction) : Forth × Option Error :=
  if f.stack.length < 2 then (f, some .StackUnderflow)
  else if instruction = .Divide ∧ (f.stack.drop 1).contains 0 then (f, some .DivisionByZero)
  else
    let firstValue := f.stack.headD 0
    ({ f with
        stack := [(f.stack.drop 1).foldl (fun acc v =>
          match instruction with
          | .Add => acc + v
          | .Subtract => acc - v
          | .Multiply => acc * v
          | _ => Int.tdiv acc v) firstValue] }, none)

mutual

/-- `Forth::eval_instruction`, with an explicit fuel bounding the depth of
user-defined-word expansion (`none` = out of fuel). -/
def evalInstruction : Nat → Forth → Word → Nat → Option (Forth × Option Error)
  | 0, _, _, _ => none
  | fuel + 1, f, word, index =>
    match f.instructionFromWord word index with
    | .error e => some (f, some e)
    | .ok (.Number value) => some (f.pushValueOntoTheStack value)
    | .ok .Add => some (f.performMathsOperation .Add)
    | .ok .Subtract => some (f.performMathsOperation .Subtract)
    | .ok .Multiply => some (f.performMathsOperation .Multiply)
    | .ok .Divide => some (f.performMathsOperation .Divide)
    | .ok .Dup => some f.dup
    | .ok .Drop => some f.drop
    | .ok .Swap => some f.swap
    | .ok .Over => some f.over
    | .ok (.CallDefinition instructionIndex) =>
      runBody fuel f ((f.definitions.getD instructionIndex ⟨[], []⟩).instructions)
        (if instructionIndex > 0 then instructionIndex - 1 else instructionIndex)

/-- The `for word in def.instructions` loop of
`Forth::call_user_defined_instruction`: runs the body tokens in order under
the given scoping bound, aborting at the first error. -/
def runBody : Nat → Forth → List Word → Nat → Option (Forth × Option Error)
  | _, f, [], _ => some (f, none)
  | 0, _, _ :: _, _ => none
  | fuel + 1, f, word :: rest, maxIndex =>
    match evalInstruction fuel f word maxIndex with
    | none => none
    | some (f1, some e) => some (f1, some e)
    | some (f1, none) => runBody fuel f1 rest maxIndex

end

/-- `Forth::call_user_defined_instruction`: fetches the definition at
`instructionIndex` and runs its body with the bound
`index - 1 if index > 0 else index` (this is the expression the
`CallDefinition` branch of `evalInstruction` evaluates, one fuel unit down).
The Rust code `unwrap`s the lookup; the resolver only ever produces in-range
indices, so the `getD` default is unreachable from resolved instructions. -/
def callUserDefinedInstruction (fuel : Nat) (f : Forth) (instructionIndex : Nat) :
    Option (Forth × Option Error) :=
  runBody fuel f ((f.definitions.getD instructionIndex ⟨[], []⟩).instructions)
    (if instructionIndex > 0 then instructionIndex - 1 else instructionIndex)

/-- The `while let Some(word) = words.next()` loop of `Forth::eval`: a `:`
token enters definition collection, every other token is resolved and
executed with `max_index = definitions.len().saturating_sub(1)`. -/
def evalTokens : Nat → Forth → List Word → Option (Forth × Option Error)
  | _, f, [] => some (f, none)
  | 0, _, _ :: _ => none
  | fuel + 1, f, word :: rest =>
    if word = [':'] then
      match addDefinition rest with
      | .error e => some (f, some e)
      | .ok (d, rest1) =>
        evalTokens fuel { f with definitions := f.definitions ++ [d] } rest1
    else
      match evalInstruction fuel f word (f.definitions.length - 1) with
      | none => none
      | some (f1, some e) => some (f1, some e)
      | some (f1, none) => evalTokens fuel f1 rest

/-- `Forth::eval`. -/
def eval (fuel : Nat) (f : Forth) (input : String) : Option (Forth × Option Error) :=
  evalTokens fuel f (tokenize input)

end Forth

/-- The evaluator state reached from a fresh evaluator by `": foo foo ;"`:
one definition, at index 0, whose body mentions its own name. -/
def selfRefState : Forth := ⟨[], [⟨['F', 'O', 'O'], [['f', 'o', 'o']]⟩]⟩

/-- Specification-side description of steps 2 and 3 of the resolution
order: the fixed built-in symbol set, matched against the uppercased token. -/
def builtinInstruction (canonical : Word) : Option Instruction :=
  if canonical = ['+'] then some .Add
  else if canonical = ['-'] then some .Subtract
  else if canonical = ['*'] then some .Multiply
  else if canonical = ['/'] then some .Divide
  else if canonical = ['D', 'U', 'P'] then some .Dup
  else if canonical = ['D', 'R', 'O', 'P'] then some .Drop
  else if canonical = ['S', 'W', 'A', 'P'] then some .Swap
  else if canonical = ['O', 'V', 'E', 'R'] then some .Over
  else none

/-- Specification-side fallback chain of the resolver once the definition
table has failed to match: built-ins first, then signed-integer literal
parsing, otherwise `UnknownWord`. -/
def resolveBuiltinOrNumber (word : Word) : Except Error Instruction :=
  match builtinInstruction (toAsciiUppercase word) with
  | some b => .ok b
  | none =>
    match parseValue word with
    | some int => .ok (.Number int)
    | none => .error .UnknownWord

/-- The state produced by a successful empty-body definition `": name ;"`:
the uppercased name with an empty body is appended to the table and nothing
else changes. -/
def Forth.withEmptyDefinition (f : Forth) (name : Word) : Forth :=
  { f with definitions := f.definitions ++ [⟨toAsciiUppercase name, []⟩] }

-- sanity-check examples (kept as anonymous examples, not claim theorems)

example : Forth.eval 9 Forth.new "foo" = some (Forth.new, some Error.UnknownWord) := rfl

example : parseValue ['-', '7'] = some (-7) := rfl
example : parseValue ['2', '1', '4', '7', '4', '8', '3', '6', '4', '8'] = none := rfl
example : parseValue ['-', '2', '1', '4', '7', '4', '8', '3', '6', '4', '8'] =
    some (-2147483648) := by decide

/-- In `selfRefState`, executing the body of definition 0 never finishes:
at every fuel, both the instruction step on the body token `foo` and the
body loop of definition 0 run out of fuel, because each re-invokes
definition 0 (its scoping bound is `0`, which its own index satisfies). -/
theorem selfRefState_loops : ∀ fuel : Nat,
    Forth.evalInstruction fuel selfRefState ['f', 'o', 'o'] 0 = none ∧
    Forth.runBody fuel selfRefState [['f', 'o', 'o']] 0 = none := by
  intro fuel
  induction fuel with
  | zero => exact ⟨rfl, rfl⟩
  | succ n ih =>
    refine ⟨ih.2, ?_⟩
    show (match Forth.evalInstruction n selfRefState ['f', 'o', 'o'] 0 with
      | none => none
      | some (f1, some e) => some (f1, some e)
      | some (f1, none) => Forth.runBody n f1 [] 0) = none
    rw [ih.1]

/-- C1: the claim says a token resolved while executing the body of the
definition at index `k` may only match definitions with index `< k`, and in
particular the body of the very first definition (index 0) matches no
definition at all, so no definition ever resolves to itself. The code
violates this at `k = 0`: the scoping bound passed by
`call_user_defined_instruction` is `index - 1 if index > 0 else index`,
which for index 0 is 0, and the table scan accepts indices `≤` the bound —
so in the reachable state produced by `": foo foo ;"`, the body token `foo`
of definition 0 resolves to definition 0 itself. -/
theorem c1_definition_zero_resolves_to_itself :
    Forth.eval 4 Forth.new ": foo foo ;" = some (selfRefState, none) ∧
    Forth.instructionFromWord selfRefState ['f', 'o', 'o']
      (if 0 > 0 then 0 - 1 else 0) = .ok (.CallDefinition 0) :=
  ⟨rfl, rfl⟩

/-- C2: the claim says `eval` terminates on every state and input. It does
not: on a fresh evaluator, `": foo foo ; foo"` makes definition 0 re-invoke
itself forever (see `c1_definition_zero_resolves_to_itself`), so the
fuelled evaluation runs out of fuel no matter how much fuel it is given —
the Rust code recurses without bound on this input. -/
theorem c2_eval_diverges_on_self_reference :
    ∀ fuel : Nat, Forth.eval fuel Forth.new ": foo foo ; foo" = none := by
  intro fuel
  match fuel with
  | 0 => rfl
  | n + 1 =>
    show Forth.evalTokens n selfRefState [['f', 'o', 'o']] = none
    match n with
    | 0 => rfl
    | m + 1 =>
      show (match Forth.evalInstruction m selfRefState ['f', 'o', 'o'] 0 with
        | none => none
        | some (f1, some e) => some (f1, some e)
        | some (f1, none) => Forth.evalTokens m f1 []) = none
      rw [(selfRefState_loops m).1]

/-- C3 counterexample: the claim says every operation that lacks operands
fails with `StackUnderflow` leaving the stack exactly as it was. `swap` on
the one-element stack `[5]` does fail with `StackUnderflow`, but its first
pop has already removed the element: the stack ends up empty, not `[5]`. -/
theorem c3_swap_on_singleton_loses_element :
    Forth.swap ⟨[5], []⟩ = (⟨[], []⟩, some Error.StackUnderflow) ∧
    (⟨[], []⟩ : Forth) ≠ (⟨[5], []⟩ : Forth) :=
  ⟨rfl, by decide⟩

/-- C3 (amended): underflowing operations fail with `StackUnderflow`; the
stack is left unchanged by `dup`, `drop`, `swap` and `over` on an empty
stack and by the arithmetic operations on any stack with fewer than two
values, but `swap` and `over` on a one-element stack pop that element
before failing, leaving the stack empty rather than unchanged. -/
theorem c3_underflow_behavior (f : Forth) :
    (f.stack = [] →
      f.dup = (f, some .StackUnderflow) ∧ f.drop = (f, some .StackUnderflow) ∧
      f.swap = (f, some .StackUnderflow) ∧ f.over = (f, some .StackUnderflow)) ∧
    (∀ v : Value, f.stack = [v] →
      f.swap = ({ f with stack := [] }, some .StackUnderflow) ∧
      f.over = ({ f with stack := [] }, some .StackUnderflow)) ∧
    (∀ instruction, f.stack.length < 2 →
      f.performMathsOperation instruction = (f, some .StackUnderflow)) := by
  obtain ⟨s, ds⟩ := f
  refine ⟨?_, ?_, ?_⟩
  · intro h
    cases h
    exact ⟨rfl, rfl, rfl, rfl⟩
  · intro v h
    cases h
    exact ⟨rfl, rfl⟩
  · intro instruction h
    unfold Forth.performMathsOperation
    rw [if_pos h]

/-- Witness for `c3_underflow_behavior` at concrete stacks. -/
theorem c3_underflow_behavior_witness :
    Forth.dup ⟨[], []⟩ = (⟨[], []⟩, some Error.StackUnderflow) ∧
    Forth.swap ⟨[7], []⟩ = (⟨[], []⟩, some Error.StackUnderflow) ∧
    Forth.performMathsOperation ⟨[7], []⟩ .Add = (⟨[7], []⟩, some Error.StackUnderflow) :=
  ⟨((c3_underflow_behavior ⟨[], []⟩).1 rfl).1,
   ((c3_underflow_behavior ⟨[7], []⟩).2.1 7 rfl).1,
   (c3_underflow_behavior ⟨[7], []⟩).2.2 .Add (by decide)⟩

/-- C4: on a stack with at least two values (bottom `b`, then `v`, then
`rest`), each arithmetic operation replaces the whole stack by the single
value of the left fold of the values above the bottom onto the bottom-most
value; `Divide` does so when no value above the bottom is zero. The three
concrete examples of the claim evaluate as stated. -/
theorem c4_arithmetic_folds_whole_stack (f : Forth) (b v : Value) (rest : List Value)
    (h : f.stack = b :: v :: rest) :
    f.performMathsOperation .Add = ({ f with stack := [(v :: rest).foldl (· + ·) b] }, none) ∧
    f.performMathsOperation .Subtract =
      ({ f with stack := [(v :: rest).foldl (· - ·) b] }, none) ∧
    f.performMathsOperation .Multiply =
      ({ f with stack := [(v :: rest).foldl (· * ·) b] }, none) ∧
    (0 ∉ v :: rest →
      f.performMathsOperation .Divide =
        ({ f with stack := [(v :: rest).foldl Int.tdiv b] }, none)) ∧
    Forth.eval 9 Forth.new "1 2 3 +" = some (⟨[6], []⟩, none) ∧
    Forth.eval 9 Forth.new "1 2 3 -" = some (⟨[-4], []⟩, none) ∧
    Forth.eval 9 Forth.new "10 2 /" = some (⟨[5], []⟩, none) := by
  obtain ⟨s, ds⟩ := f
  cases h
  have hlen : ¬ ((b :: v :: rest).length < 2) := by simp
  refine ⟨?_, ?_, ?_, ?_, rfl, rfl, rfl⟩
  · unfold Forth.performMathsOperation
    rw [if_neg hlen, if_neg (by simp)]
    rfl
  · unfold Forth.performMathsOperation
    rw [if_neg hlen, if_neg (by simp)]
    rfl
  · unfold Forth.performMathsOperation
    rw [if_neg hlen, if_neg (by simp)]
    rfl
  · intro h0
    unfold Forth.performMathsOperation
    rw [if_neg hlen, if_neg (by simpa using h0)]
    rfl

/-- Witness for `c4_arithmetic_folds_whole_stack` at concrete stacks. -/
theorem c4_arithmetic_folds_whole_stack_witness :
    Forth.performMathsOperation ⟨[1, 2], []⟩ .Add = (⟨[3], []⟩, none) ∧
    Forth.performMathsOperation ⟨[6, 2], []⟩ .Divide = (⟨[3], []⟩, none) :=
  ⟨(c4_arithmetic_folds_whole_stack ⟨[1, 2], []⟩ 1 2 [] rfl).1,
   (c4_arithmetic_folds_whole_stack ⟨[6, 2], []⟩ 6 2 [] rfl).2.2.2.1 (by decide)⟩

/-- C5: on a stack with at least two values, `Divide` fails with
`DivisionByZero` exactly when some value strictly above the bottom is zero,
and on that failure the state is returned untouched; when no such zero
exists it succeeds (a zero in the bottom-most position alone does not
fail). The claim's example `"1 0 /"` fails with `DivisionByZero` leaving
the stack `[1, 0]`, while `"0 5 /"` succeeds with `[0]`. -/
theorem c5_divide_zero_check (f : Forth) (h : 2 ≤ f.stack.length) :
    (0 ∈ f.stack.drop 1 → f.performMathsOperation .Divide = (f, some .DivisionByZero)) ∧
    (0 ∉ f.stack.drop 1 →
      ∃ q : Value, f.performMathsOperation .Divide = ({ f with stack := [q] }, none)) ∧
    Forth.eval 9 Forth.new "1 0 /" = some (⟨[1, 0], []⟩, some .DivisionByZero) ∧
    Forth.eval 9 Forth.new "0 5 /" = some (⟨[0], []⟩, none) := by
  have hlen : ¬ (f.stack.length < 2) := by omega
  refine ⟨?_, ?_, rfl, rfl⟩
  · intro h0
    unfold Forth.performMathsOperation
    rw [if_neg hlen, if_pos ⟨rfl, by simpa using h0⟩]
  · intro h0
    unfold Forth.performMathsOperation
    rw [if_neg hlen, if_neg (by simpa using h0)]
    exact ⟨_, rfl⟩

/-- Witness for `c5_divide_zero_check` at concrete stacks. -/
theorem c5_divide_zero_check_witness :
    Forth.performMathsOperation ⟨[1, 0], []⟩ .Divide =
      (⟨[1, 0], []⟩, some Error.DivisionByZero) ∧
    ∃ q : Value, Forth.performMathsOperation ⟨[0, 5], []⟩ .Divide = (⟨[q], []⟩, none) :=
  ⟨(c5_divide_zero_check ⟨[1, 0], []⟩ (by decide)).1 (by decide),
   (c5_divide_zero_check ⟨[0, 5], []⟩ (by decide)).2.1 (by decide)⟩

/-- C7: token resolution tries the definition table first (so any match
there wins, shadowing built-ins), then falls through to the built-in set,
then to signed-integer literal parsing, and otherwise fails with
`UnknownWord`; the shadowing example `": + * ; 2 3 +"` leaves `[6]`. -/
theorem c7_resolution_order :
    (∀ (f : Forth) (w : Word) (m i : Nat),
      Forth.lookupDefinition f.definitions (toAsciiUppercase w) m = some i →
        f.instructionFromWord w m = .ok (.CallDefinition i)) ∧
    (∀ (f : Forth) (w : Word) (m : Nat),
      Forth.lookupDefinition f.definitions (toAsciiUppercase w) m = none →
        f.instructionFromWord w m = resolveBuiltinOrNumber w) ∧
    (∀ w : Word, resolveBuiltinOrNumber w = .error .UnknownWord ↔
      builtinInstruction (toAsciiUppercase w) = none ∧ parseValue w = none) ∧
    Forth.eval 9 Forth.new ": + * ; 2 3 +" =
      some (⟨[6], [⟨['+'], [['*']]⟩]⟩, none) := by
  refine ⟨?_, ?_, ?_, rfl⟩
  · intro f w m i h
    simp only [Forth.instructionFromWord, h]
  · intro f w m h
    simp only [Forth.instructionFromWord, h]
    unfold resolveBuiltinOrNumber builtinInstruction
    split_ifs <;> rfl
  · intro w
    unfold resolveBuiltinOrNumber
    cases hb : builtinInstruction (toAsciiUppercase w) with
    | none =>
      cases hp : parseValue w with
      | none => simp
      | some n => simp
    | some b => simp

/-- Witness for `c7_resolution_order` at concrete tokens: a user definition
named `X` shadows nothing and resolves first; `dup` falls through the empty
table to the built-in `Dup`; `q` resolves to nothing. -/
theorem c7_resolution_order_witness :
    Forth.instructionFromWord ⟨[], [⟨['X'], []⟩]⟩ ['x'] 0 = .ok (.CallDefinition 0) ∧
    Forth.instructionFromWord ⟨[], []⟩ ['d', 'u', 'p'] 5 = .ok .Dup ∧
    (resolveBuiltinOrNumber ['q'] = .error .UnknownWord ↔
      builtinInstruction (toAsciiUppercase ['q']) = none ∧ parseValue ['q'] = none) :=
  ⟨c7_resolution_order.1 ⟨[], [⟨['X'], []⟩]⟩ ['x'] 0 0 rfl,
   (c7_resolution_order.2.1 ⟨[], []⟩ ['d', 'u', 'p'] 5 rfl).trans rfl,
   c7_resolution_order.2.2.1 ['q']⟩

/-- If the token stream holds no `;` terminator, the collection loop of
`add_definition` reaches the end of input and fails with `InvalidWord`. -/
theorem collectDefinitionBody_no_terminator (name : Word) :
    ∀ (ws acc : List Word), [';'] ∉ ws →
      Forth.collectDefinitionBody name acc ws = .error .InvalidWord := by
  intro ws
  induction ws with
  | nil => intro acc _; rfl
  | cons w rest ih =>
    intro acc h
    have hw : ¬ (w = [';']) := fun he => h (he ▸ List.mem_cons_self w rest)
    unfold Forth.collectDefinitionBody
    rw [if_neg hw]
    exact ih _ (fun hm => h (List.mem_cons_of_mem w hm))

/-- C8: a malformed definition attempt — name token absent, name a valid
signed-integer literal, or end of input before the `;` terminator — makes
`eval` fail with `InvalidWord`, and the whole pre-attempt state `f`, in
particular its definition table, is returned untouched (no partial
definition is committed). The spec's examples `": 1 2 ;"` and
`": foo 1 2"` fail exactly this way. -/
theorem c8_malformed_definition_rejected (f : Forth) (fuel : Nat) :
    Forth.evalTokens (fuel + 1) f [[':']] = some (f, some .InvalidWord) ∧
    (∀ (name : Word) (rest : List Word), (parseValue name).isSome →
      Forth.evalTokens (fuel + 1) f ([':'] :: name :: rest) = some (f, some .InvalidWord)) ∧
    (∀ (name : Word) (body : List Word), [';'] ∉ body →
      Forth.evalTokens (fuel + 1) f ([':'] :: name :: body) = some (f, some .InvalidWord)) ∧
    Forth.eval 9 Forth.new ": 1 2 ;" = some (Forth.new, some .InvalidWord) ∧
    Forth.eval 9 Forth.new ": foo 1 2" = some (Forth.new, some .InvalidWord) := by
  refine ⟨rfl, ?_, ?_, rfl, rfl⟩
  · intro name rest hp
    have hadd : Forth.addDefinition (name :: rest) = .error .InvalidWord := by
      show (if (parseValue name).isSome = true then Except.error Error.InvalidWord
        else Forth.collectDefinitionBody name [] rest) = Except.error Error.InvalidWord
      rw [if_pos hp]
    show (match Forth.addDefinition (name :: rest) with
      | .error e => some (f, some e)
      | .ok (d, rest1) =>
        Forth.evalTokens fuel { f with definitions := f.definitions ++ [d] } rest1)
      = some (f, some Error.InvalidWord)
    rw [hadd]
  · intro name body h
    have hadd : Forth.addDefinition (name :: body) = .error .InvalidWord := by
      show (if (parseValue name).isSome = true then Except.error Error.InvalidWord
        else Forth.collectDefinitionBody name [] body) = Except.error Error.InvalidWord
      by_cases hp : (parseValue name).isSome
      · rw [if_pos hp]
      · rw [if_neg hp]
        exact collectDefinitionBody_no_terminator name body [] h
    show (match Forth.addDefinition (name :: body) with
      | .error e => some (f, some e)
      | .ok (d, rest1) =>
        Forth.evalTokens fuel { f with definitions := f.definitions ++ [d] } rest1)
      = some (f, some Error.InvalidWord)
    rw [hadd]

/-- Witness for `c8_malformed_definition_rejected` at concrete inputs. -/
theorem c8_malformed_definition_rejected_witness :
    Forth.evalTokens 1 Forth.new [[':'], ['5'], [';']] =
      some (Forth.new, some Error.InvalidWord) ∧
    Forth.evalTokens 1 Forth.new [[':'], ['f'], ['1']] =
      some (Forth.new, some Error.InvalidWord) :=
  ⟨(c8_malformed_definition_rejected Forth.new 0).2.1 ['5'] [[';']] (by decide),
   (c8_malformed_definition_rejected Forth.new 0).2.2.1 ['f'] [['1']] (by decide)⟩

/-- `stack_pop` never touches the definition table. -/
theorem stackPop_definitions (f : Forth) (v : Value) (f1 : Forth)
    (h : f.stackPop = .ok (v, f1)) : f1.definitions = f.definitions := by
  unfold Forth.stackPop at h
  cases hg : f.stack.getLast? <;> rw [hg] at h
  · exact Except.noConfusion h
  · cases h; rfl

/-- `dup` never touches the definition table. -/
theorem dup_definitions (f : Forth) : f.dup.1.definitions = f.definitions := by
  unfold Forth.dup
  cases hp : f.stackPop with
  | error e => rfl
  | ok p =>
    obtain ⟨v, f1⟩ := p
    exact stackPop_definitions f v f1 hp

/-- `drop` never touches the definition table. -/
theorem drop_definitions (f : Forth) : f.drop.1.definitions = f.definitions := by
  unfold Forth.drop
  cases hp : f.stackPop with
  | error e => rfl
  | ok p =>
    obtain ⟨v, f1⟩ := p
    exact stackPop_definitions f v f1 hp

/-- `swap` never touches the definition table. -/
theorem swap_definitions (f : Forth) : f.swap.1.definitions = f.definitions := by
  unfold Forth.swap
  cases hp : f.stackPop with
  | error e => rfl
  | ok p =>
    obtain ⟨v, f1⟩ := p
    have h1 := stackPop_definitions f v f1 hp
    show (match f1.stackPop with
      | .error e => (f1, some e)
      | .ok (previous, f2) =>
        ((f2.stackPush v).stackPush previous, none)).1.definitions = f.definitions
    cases hp2 : f1.stackPop with
    | error e => exact h1
    | ok p2 =>
      obtain ⟨v2, f2⟩ := p2
      exact (stackPop_definitions f1 v2 f2 hp2).trans h1

/-- `over` never touches the definition table. -/
theorem over_definitions (f : Forth) : f.over.1.definitions = f.definitions := by
  unfold Forth.over
  cases hp : f.stackPop with
  | error e => rfl
  | ok p =>
    obtain ⟨v, f1⟩ := p
    have h1 := stackPop_definitions f v f1 hp
    show (match f1.stackPop with
      | .error e => (f1, some e)
      | .ok (previous, f2) =>
        (((f2.stackPush previous).stackPush v).stackPush previous, none)).1.definitions =
      f.definitions
    cases hp2 : f1.stackPop with
    | error e => exact h1
    | ok p2 =>
      obtain ⟨v2, f2⟩ := p2
      exact (stackPop_definitions f1 v2 f2 hp2).trans h1

/-- `perform_maths_operation` never touches the definition table. -/
theorem performMathsOperation_definitions (f : Forth) (instruction : Instruction) :
    (f.performMathsOperation instruction).1.definitions = f.definitions := by
  unfold Forth.performMathsOperation
  split
  · rfl
  · split
    · rfl
    · rfl

/-- Executing any single instruction, and running any definition body,
leaves the definition table unchanged (whether the run succeeds or
errors): only top-level `:` handling in `eval` ever appends to it. -/
theorem evalInstruction_definitions : ∀ fuel : Nat,
    (∀ (f : Forth) (w : Word) (m : Nat) (r : Forth × Option Error),
      Forth.evalInstruction fuel f w m = some r → r.1.definitions = f.definitions) ∧
    (∀ (f : Forth) (ws : List Word) (m : Nat) (r : Forth × Option Error),
      Forth.runBody fuel f ws m = some r → r.1.definitions = f.definitions) := by
  intro fuel
  induction fuel with
  | zero =>
    constructor
    · intro f w m r h
      exact Option.noConfusion h
    · intro f ws m r h
      cases ws with
      | nil =>
        have h2 : some (f, (none : Option Error)) = some r := h
        cases h2; rfl
      | cons w rest => exact Option.noConfusion h
  | succ n ih =>
    constructor
    · intro f w m r h
      simp only [Forth.evalInstruction] at h
      split at h <;> try cases h
      all_goals
        first
        | rfl
        | exact performMathsOperation_definitions _ _
        | exact dup_definitions _
        | exact drop_definitions _
        | exact swap_definitions _
        | exact over_definitions _
        | exact ih.2 _ _ _ _ h
    · intro f ws m r h
      cases ws with
      | nil =>
        have h2 : some (f, (none : Option Error)) = some r := h
        cases h2; rfl
      | cons w rest =>
        simp only [Forth.runBody] at h
        cases he : Forth.evalInstruction n f w m with
        | none => rw [he] at h; exact Option.noConfusion h
        | some p =>
          obtain ⟨f1, oe⟩ := p
          rw [he] at h
          cases oe with
          | none =>
            have h2 : Forth.runBody n f1 rest m = some r := h
            exact (ih.2 _ _ _ _ h2).trans (ih.1 _ _ _ _ he)
          | some e =>
            have h2 : some (f1, some e) = some r := h
            cases h2
            exact ih.1 _ _ _ _ he

/-- C9 counterexample: the claim says a `:` token stored inside a body
always fails resolution with `UnknownWord`. But `add_definition` happily
names a definition `:` (it only rejects numeric names), and body tokens are
resolved against the definition table first — so after `": : 7 ; : x : ;"`,
invoking `x` resolves its body token `:` to the definition named `:` and
pushes 7 instead of failing. -/
theorem c9_colon_body_token_can_resolve :
    Forth.eval 12 Forth.new ": : 7 ; : x : ; x" =
      some (⟨[7], [⟨[':'], [['7']]⟩, ⟨['X'], [[':']]⟩]⟩, none) := rfl

/-- C9 (amended): invoking a user-defined word leaves the definition table
unchanged whether it succeeds or fails, and a `:` body token never begins a
definition — it is resolved like any other word, so it fails with
`UnknownWord` whenever no in-scope definition is literally named `:`
(`:` is no built-in and parses as no number). -/
theorem c9_invoke_preserves_definitions :
    (∀ (fuel : Nat) (f : Forth) (i : Nat) (r : Forth × Option Error),
      Forth.callUserDefinedInstruction fuel f i = some r →
        r.1.definitions = f.definitions) ∧
    (∀ (fuel : Nat) (f : Forth) (w : Word) (m : Nat) (r : Forth × Option Error),
      Forth.evalInstruction fuel f w m = some r → r.1.definitions = f.definitions) ∧
    (∀ (f : Forth) (m : Nat),
      Forth.lookupDefinition f.definitions [':'] m = none →
        f.instructionFromWord [':'] m = .error .UnknownWord) := by
  refine ⟨?_, ?_, ?_⟩
  · intro fuel f i r h
    exact (evalInstruction_definitions fuel).2 _ _ _ _ h
  · intro fuel f w m r h
    exact (evalInstruction_definitions fuel).1 _ _ _ _ h
  · intro f m h
    simp only [Forth.instructionFromWord, show toAsciiUppercase [':'] = [':'] from rfl, h]
    rfl

/-- Witness for `c9_invoke_preserves_definitions` at concrete inputs:
invoking the word `A` (body `3`) pushes 3 and keeps the table; `:` is
unknown on an empty table. -/
theorem c9_invoke_preserves_definitions_witness :
    (⟨[3], [⟨['A'], [['3']]⟩]⟩ : Forth).definitions =
      (⟨[], [⟨['A'], [['3']]⟩]⟩ : Forth).definitions ∧
    Forth.instructionFromWord ⟨[], []⟩ [':'] 0 = .error .UnknownWord :=
  ⟨c9_invoke_preserves_definitions.1 2 ⟨[], [⟨['A'], [['3']]⟩]⟩ 0
      (⟨[3], [⟨['A'], [['3']]⟩]⟩, none) rfl,
   c9_invoke_preserves_definitions.2.2 ⟨[], []⟩ 0 rfl⟩

/-- C6: from a fresh evaluator, `": foo 5 ; : foo foo 6 ; foo"` leaves the
stack `[5, 6]` (bottom to top): the `foo` inside the second definition's
body resolves to the first definition (index 0), not to the second
definition itself. -/
theorem c6_inner_foo_resolves_to_first_definition :
    Forth.eval 12 Forth.new ": foo 5 ; : foo foo 6 ; foo" =
      some (⟨[5, 6], [⟨['F', 'O', 'O'], [['5']]⟩,
        ⟨['F', 'O', 'O'], [['f', 'o', 'o'], ['6']]⟩]⟩, none) := rfl

/-- Running an empty body succeeds immediately at any fuel, returning the
state unchanged. -/
theorem runBody_nil (fuel : Nat) (f : Forth) (m : Nat) :
    Forth.runBody fuel f [] m = some (f, none) := by
  cases fuel <;> rfl

/-- Appending one definition puts it at index `length` of the old table. -/
theorem getD_append_length (l : List Definition) (d dflt : Definition) :
    (l ++ [d]).getD l.length dflt = d := by
  simp [List.getD_eq_getElem?_getD, List.getElem?_append_right (le_refl l.length)]

/-- The reverse scan of an extended table finds the just-appended
definition first, whenever the scoping bound admits its index. -/
theorem lookupDefinition_append_self (defs : List Definition) (d : Definition) (m : Nat)
    (hm : defs.length ≤ m) :
    Forth.lookupDefinition (defs ++ [d]) d.name m = some defs.length := by
  unfold Forth.lookupDefinition
  rw [List.length_append]
  simp only [List.length_singleton]
  unfold Forth.lookupFrom
  rw [getD_append_length, if_pos ⟨rfl, hm⟩]

/-- C10: for every name that does not parse as a signed-integer literal,
`": name ;"` succeeds and appends a definition with the uppercased name and
an empty body; invoking that definition afterwards — directly, or by
resolving the name under any bound that admits the new index — succeeds and
changes neither the stack nor the definition table. -/
theorem c10_empty_definition_invocation (f : Forth) (name : Word)
    (h : parseValue name = none) :
    Forth.evalTokens 1 f [[':'], name, [';']] = some (f.withEmptyDefinition name, none) ∧
    (∀ fuel : Nat, Forth.callUserDefinedInstruction fuel (f.withEmptyDefinition name)
      f.definitions.length = some (f.withEmptyDefinition name, none)) ∧
    (∀ (fuel m : Nat), f.definitions.length ≤ m →
      Forth.evalInstruction (fuel + 1) (f.withEmptyDefinition name) name m =
        some (f.withEmptyDefinition name, none)) := by
  have hd : (f.withEmptyDefinition name).definitions.getD f.definitions.length ⟨[], []⟩ =
      ⟨toAsciiUppercase name, []⟩ := getD_append_length f.definitions _ _
  refine ⟨?_, ?_, ?_⟩
  · have hns : ¬ ((parseValue name).isSome = true) := by simp [h]
    have hadd : Forth.addDefinition [name, [';']] =
        .ok (⟨toAsciiUppercase name, []⟩, []) := by
      show (if (parseValue name).isSome = true then Except.error Error.InvalidWord
        else Forth.collectDefinitionBody name [] [[';']]) =
        .ok (⟨toAsciiUppercase name, []⟩, [])
      rw [if_neg hns]
      rfl
    show (match Forth.addDefinition [name, [';']] with
      | .error e => some (f, some e)
      | .ok (d, rest1) =>
        Forth.evalTokens 0 { f with definitions := f.definitions ++ [d] } rest1)
      = some (f.withEmptyDefinition name, none)
    rw [hadd]
    rfl
  · intro fuel
    unfold Forth.callUserDefinedInstruction
    rw [hd]
    exact runBody_nil _ _ _
  · intro fuel m hm
    have hres : (f.withEmptyDefinition name).instructionFromWord name m =
        .ok (.CallDefinition f.definitions.length) := by
      have hl : Forth.lookupDefinition (f.withEmptyDefinition name).definitions
          (toAsciiUppercase name) m = some f.definitions.length :=
        lookupDefinition_append_self f.definitions ⟨toAsciiUppercase name, []⟩ m hm
      simp only [Forth.instructionFromWord, hl]
    simp only [Forth.evalInstruction, hres]
    rw [hd]
    exact runBody_nil _ _ _

/-- Witness for `c10_empty_definition_invocation` with the name `a` on a
fresh evaluator. -/
theorem c10_empty_definition_invocation_witness :
    Forth.evalTokens 1 Forth.new [[':'], ['a'], [';']] =
      some (⟨[], [⟨['A'], []⟩]⟩, none) ∧
    Forth.callUserDefinedInstruction 0 ⟨[], [⟨['A'], []⟩]⟩ 0 =
      some (⟨[], [⟨['A'], []⟩]⟩, none) ∧
    Forth.evalInstruction 1 ⟨[], [⟨['A'], []⟩]⟩ ['a'] 3 =
      some (⟨[], [⟨['A'], []⟩]⟩, none) :=
  ⟨(c10_empty_definition_invocation Forth.new ['a'] rfl).1,
   (c10_empty_definition_invocation Forth.new ['a'] rfl).2.1 0,
   (c10_empty_definition_invocation Forth.new ['a'] rfl).2.2 0 3 (by decide)⟩
